import Mathlib

/-!
Shallow embedding of the meta-scraper program (`main.py`) and verification of
its specification.  Python strings are modelled as Lean `String`s, dictionaries
as lists of pairs in insertion order, exceptions as `Except`, and the
BeautifulSoup document as an explicit structure recording exactly the
observations the program makes of the parsed HTML.
-/

/-- Sentinel string used by the scraper for absent fields (`no_data` in
`fetch_metadata`). -/
def noData : String := "— — —"

/-- Model of Python `str.strip()`: trims surrounding whitespace (over the
character sequence, so that it evaluates by kernel reduction). -/
def pyStrip (s : String) : String :=
  String.mk (((s.data.dropWhile Char.isWhitespace).reverse.dropWhile
    Char.isWhitespace).reverse)

/-- Model of Python `str.rstrip("/")`: drops all trailing slash characters. -/
def pyRstripSlash (s : String) : String :=
  String.mk ((s.data.reverse.dropWhile (· == '/')).reverse)

/-- Model of Python `s.startswith(p)`, over the character sequences. -/
def pyStartsWith (s p : String) : Bool := p.data.isPrefixOf s.data

/-- Boolean test that `needle` occurs contiguously inside `hay`; models the
Python substring operator `in` on the underlying character sequences. -/
def listInfixB (needle : List Char) : List Char → Bool
  | [] => needle.isEmpty
  | c :: t => needle.isPrefixOf (c :: t) || listInfixB needle t

/-- Model of the Python substring test `sub in s`. -/
def pyInStr (sub s : String) : Bool := listInfixB sub.data s.data

/-- Characters allowed after the first letter of a URL scheme
(`urllib.parse.scheme_chars`). -/
def isSchemeChar (c : Char) : Bool := c.isAlphanum || c == '+' || c == '-' || c == '.'

/-- Valid URL scheme text: nonempty, first character a letter, remaining
characters scheme characters (as `urllib.parse.urlsplit` checks). -/
def validScheme : List Char → Bool
  | [] => false
  | c :: rest => c.isAlpha && rest.all isSchemeChar

/-- The URL with a leading `scheme:` removed when a valid scheme is present,
following `urllib.parse.urlsplit`. -/
def pySchemeRest (u : String) : String :=
  match u.data.findIdx? (· == ':') with
  | some i => if validScheme (u.data.take i) then String.mk (u.data.drop (i + 1)) else u
  | none => u

/-- Model of `urllib.parse.urlparse(u).netloc`: the authority component, i.e.
the text between a leading `//` (after any scheme) and the next `/`, `?` or
`#`; the empty string when the URL has no `//` part. -/
def urlNetloc (u : String) : String :=
  let rest := (pySchemeRest u).data
  if rest.take 2 = ['/', '/'] then
    String.mk ((rest.drop 2).takeWhile (fun c => c != '/' && c != '?' && c != '#'))
  else ""

/-- Word characters for the regex `\w` as it applies to this program's data:
ASCII letters, digits and underscore, plus the Cyrillic letters used by the
program's stopword list (U+0410 to U+044F and the letter yo). -/
def wordChar (c : Char) : Bool :=
  c.isAlphanum || c == '_' ||
    (decide (0x410 ≤ c.toNat) && decide (c.toNat ≤ 0x44F)) ||
    c.toNat == 0x401 || c.toNat == 0x451

/-- Model of Python `str.lower()` on the character range relevant to this
program (ASCII and Cyrillic). -/
def pyLowerChar (c : Char) : Char :=
  if c.isUpper then c.toLower
  else if 0x410 ≤ c.toNat ∧ c.toNat ≤ 0x42F then Char.ofNat (c.toNat + 0x20)
  else if c.toNat = 0x401 then Char.ofNat 0x451
  else c

/-- Model of Python `str.lower()`. -/
def pyLower (s : String) : String := String.mk (s.data.map pyLowerChar)

/-- Model of `re.findall(r'\w+', s)`: the maximal runs of word characters of
`s`, in order. -/
def findallWords (s : String) : List String :=
  ((s.data.splitOnP (fun c => !wordChar c)).filter (· ≠ [])).map String.mk

/-- Model of Python `str.isdigit()` (restricted to ASCII digits, the digits the
tokenizer model produces). -/
def pyIsdigit (s : String) : Bool := !s.data.isEmpty && s.data.all Char.isDigit

/-- Stopword list of `fetch_metadata`, verbatim. -/
def stopwords : List String :=
  ["и", "в", "на", "с", "по", "о", "из", "за", "для", "к", "от", "при",
   "что", "это", "как", "так", "но", "а", "же", "то", "у", "об", "над",
   "ли", "же", "без", "до", "под", "через", "между", "про", "вне", "поэтому",
   "мы", "я", "они", "вы", "он", "она", "его", "ее", "их", "мне", "тебе", "вас", "нас"]

/-- Token filter of `fetch_metadata`: keep a word when it is not a stopword,
is longer than one character, and is not all digits. -/
def keepWord (w : String) : Bool :=
  !stopwords.contains w && decide (1 < w.length) && !pyIsdigit w

/-- The `filtered_words` list of `fetch_metadata`. -/
def filteredWords (ws : List String) : List String := ws.filter keepWord

/-- Index of the first occurrence of `w` in `ws` (the length of `ws` when `w`
is absent). -/
def firstIdx (ws : List String) (w : String) : Nat :=
  match ws with
  | [] => 0
  | x :: t => if w = x then 0 else firstIdx t w + 1

/-- First-occurrence deduplication: the key order of a Python dict or
`Counter` built by inserting the elements of `ws` in order (each key appears
at the position of its first occurrence). -/
def dedupFirst (ws : List String) : List String :=
  (ws.enum.filter (fun p => firstIdx ws p.2 == p.1)).map Prod.snd

/-- Items of `collections.Counter(ws)`: keys in first-insertion order, each
with its multiplicity in `ws`. -/
def counterItems (ws : List String) : List (String × Nat) :=
  (dedupFirst ws).map (fun w => (w, ws.count w))

/-- Ordering used by `Counter.most_common`: descending count.  The Python sort
is stable, which the embedding models with a stable insertion sort. -/
def countOrder (a b : String × Nat) : Prop := b.2 ≤ a.2

instance : DecidableRel countOrder := fun a b => inferInstanceAs (Decidable (b.2 ≤ a.2))

instance : IsTotal (String × Nat) countOrder := ⟨fun a b => le_total b.2 a.2⟩

instance : IsTrans (String × Nat) countOrder := ⟨fun _ _ _ h1 h2 => le_trans h2 h1⟩

/-- Model of `Counter(ws).most_common(n)`: stable sort of the counter items by
descending count, then the first `n` entries. -/
def mostCommon (n : Nat) (ws : List String) : List (String × Nat) :=
  ((counterItems ws).insertionSort countOrder).take n

/-- Total order used by the specification's reference computation for
`top_words`: descending count, ties broken by first occurrence in the token
sequence `ts`. -/
def specOrder (ts : List String) (a b : String × Nat) : Prop :=
  b.2 < a.2 ∨ (a.2 = b.2 ∧ firstIdx ts a.1 ≤ firstIdx ts b.1)

instance (ts : List String) : DecidableRel (specOrder ts) := fun a b =>
  inferInstanceAs (Decidable (b.2 < a.2 ∨ (a.2 = b.2 ∧ firstIdx ts a.1 ≤ firstIdx ts b.1)))

instance (ts : List String) : IsTotal (String × Nat) (specOrder ts) := by
  constructor
  intro a b
  rcases Nat.lt_trichotomy a.2 b.2 with h | h | h
  · exact Or.inr (Or.inl h)
  · rcases Nat.le_total (firstIdx ts a.1) (firstIdx ts b.1) with hi | hi
    · exact Or.inl (Or.inr ⟨h, hi⟩)
    · exact Or.inr (Or.inr ⟨h.symm, hi⟩)
  · exact Or.inl (Or.inl h)

instance (ts : List String) : IsTrans (String × Nat) (specOrder ts) := by
  constructor
  intro a b c h1 h2
  rcases h1 with h1 | ⟨e1, i1⟩
  · rcases h2 with h2 | ⟨e2, i2⟩
    · exact Or.inl (Nat.lt_trans h2 h1)
    · exact Or.inl (e2 ▸ h1)
  · rcases h2 with h2 | ⟨e2, i2⟩
    · exact Or.inl (e1 ▸ h2)
    · exact Or.inr ⟨e1.trans e2, Nat.le_trans i1 i2⟩

/-- Reference computation of `top_words` as the specification states it:
count the filtered tokens, order the entries by descending count with ties
broken by first occurrence order in the token sequence, cap at 20 entries. -/
def topWordsSpec (ts : List String) : List (String × Nat) :=
  ((counterItems (filteredWords ts)).insertionSort (specOrder ts)).take 20

/-- Attributes of a `<meta>` element as the scraper accesses them. -/
structure MetaTag where
  nameAttr : Option String
  propAttr : Option String
  content : Option String
deriving DecidableEq

/-- Attributes of a `<link>` element as the scraper accesses them; bs4 parses
`rel` as a multi-valued attribute, hence a list of tokens. -/
structure LinkTag where
  rel : List String
  href : Option String
deriving DecidableEq

/-- Parsed HTML document, recording exactly what `fetch_metadata` observes of
the BeautifulSoup tree. -/
structure HtmlDoc where
  /-- Model of `soup.title` and its `.string`: `none` when there is no title
  element; `some none` when the element exists but `.string` is Python `None`
  (empty element, or several children); `some (some s)` when `.string` is `s`. -/
  titleTag : Option (Option String)
  /-- the `<meta>` elements, in document order -/
  metas : List MetaTag
  /-- the `<link>` elements, in document order -/
  linkTags : List LinkTag
  /-- the raw text nodes of the document in order (the input of
  `soup.stripped_strings`) -/
  texts : List String
  /-- the `src` attribute of each `<img>` element, in document order -/
  imgSrcs : List (Option String)
  /-- the `href` attribute of each `<a>` element, in document order -/
  aHrefs : List (Option String)
deriving DecidableEq

/-- The metadata record assembled by `fetch_metadata` (the `metadata` dict). -/
structure MetadataRecord where
  url : String
  title : String
  description : String
  keywords : String
  author : String
  og_title : String
  og_description : String
  og_image : String
  canonical : String
  top_words : List (String × Nat)
  images : List String
  internal_links : List String
  external_links : List String
deriving DecidableEq

/-- Python exception escaping `fetch_metadata` (its `except` clause catches
only `requests.RequestException`). -/
inductive PyError
  | attributeError
deriving DecidableEq

/-- Model of `soup.title.string.strip() if soup.title else no_data`.  A bs4
tag is truthy even when empty, so a present title element whose `.string` is
`None` makes `.strip()` raise `AttributeError`. -/
def titleField : Option (Option String) → Except PyError String
  | none => Except.ok noData
  | some none => Except.error PyError.attributeError
  | some (some s) => Except.ok (pyStrip s)

/-- Model of `(soup.find("meta", attrs=...) or {}).get("content", no_data).strip()`
for a name-keyed meta element. -/
def metaByName (doc : HtmlDoc) (n : String) : String :=
  pyStrip (match doc.metas.find? (fun m => m.nameAttr == some n) with
    | some m => m.content.getD noData
    | none => noData)

/-- Same as `metaByName` for a property-keyed meta element (Open Graph). -/
def metaByProp (doc : HtmlDoc) (p : String) : String :=
  pyStrip (match doc.metas.find? (fun m => m.propAttr == some p) with
    | some m => m.content.getD noData
    | none => noData)

/-- Model of `(soup.find("link", attrs=...) or {}).get("href", no_data).strip()`
for the canonical link element. -/
def canonicalField (doc : HtmlDoc) : String :=
  pyStrip (match doc.linkTags.find? (fun l => l.rel.contains "canonical") with
    | some l => l.href.getD noData
    | none => noData)

/-- Model of `soup.stripped_strings`: each text node stripped, empty results
skipped. -/
def strippedStrings (doc : HtmlDoc) : List String :=
  (doc.texts.map pyStrip).filter (· ≠ "")

/-- The token sequence of `fetch_metadata`:
`re.findall(r'\w+', visible_text.lower())`. -/
def docTokens (doc : HtmlDoc) : List String :=
  findallWords (pyLower (" ".intercalate (strippedStrings doc)))

/-- The record literal assembled by `fetch_metadata` once the title expression
has evaluated to `title`.  The `nfkc` parameter models
`unicodedata.normalize("NFKC", ...)`, which the final dict comprehension
applies to every string value (non-string values pass through unchanged). -/
def buildRecord (nfkc : String → String) (url : String) (doc : HtmlDoc)
    (title : String) : MetadataRecord :=
  let links := doc.aHrefs.filterMap id
  let netloc := urlNetloc url
  { url := nfkc url
    title := nfkc title
    description := nfkc (metaByName doc "description")
    keywords := nfkc (metaByName doc "keywords")
    author := nfkc (metaByName doc "author")
    og_title := nfkc (metaByProp doc "og:title")
    og_description := nfkc (metaByProp doc "og:description")
    og_image := nfkc (metaByProp doc "og:image")
    canonical := nfkc (canonicalField doc)
    top_words := mostCommon 20 (filteredWords (docTokens doc))
    images := doc.imgSrcs.filterMap id
    internal_links := links.filter (fun l => pyInStr netloc l || pyStartsWith l "/")
    external_links := links.filter (fun l => !pyInStr netloc l && !pyStartsWith l "/") }

/-- Shallow embedding of the extraction part of `fetch_metadata`, from a
successfully fetched and parsed document.  The only uncaught exception site is
the title expression. -/
def extractMetadata (nfkc : String → String) (url : String) (doc : HtmlDoc) :
    Except PyError MetadataRecord := do
  let t ← titleField doc.titleTag
  Except.ok (buildRecord nfkc url doc t)

/-- Shape of every string field of an extracted record: a trimmed raw value or
the sentinel, each passed through the final normalization step. -/
def extractedOrSentinel (nfkc : String → String) (v : String) : Prop :=
  (∃ raw, v = nfkc (pyStrip raw)) ∨ v = nfkc noData

/-- Left-justified minimum-width space padding, as Python format specs of the
form used in the word table rows. -/
def padRight (s : String) (n : Nat) : String :=
  s ++ String.mk (List.replicate (n - s.length) ' ')

/-- File name chosen by `save_metadata`: date-stamp plus the URL with scheme
text removed and slashes replaced by underscores (`str.replace` replaces all
occurrences, as in Python). -/
def renderFileName (folder ts : String) (m : MetadataRecord) : String :=
  folder ++ "/" ++ ts ++ "_" ++
    (((m.url.replace "http://" "").replace "https://" "").replace "/" "_") ++ ".md"

/-- Open Graph image block of `save_metadata`: emitted when `og_image` is
truthy and not the sentinel; a root-relative path gets the URL (stripped of
trailing slashes) prepended. -/
def ogImageBlock (m : MetadataRecord) : String :=
  let domain := pyRstripSlash m.url
  if m.og_image ≠ "" ∧ m.og_image ≠ noData then
    let src := if pyStartsWith m.og_image "/" then domain ++ m.og_image else m.og_image
    "<img src=\"" ++ src ++ "\" alt=\"OG Image\" width=\"500px\">\n\n"
  else ""

/-- Top-words table block of `save_metadata`: emitted when `top_words` is
non-empty. -/
def topWordsBlock (m : MetadataRecord) : String :=
  if m.top_words ≠ [] then
    "**Top Words:**\n\n| Word       | Count |\n|------------|-------|\n" ++
      String.join (m.top_words.map (fun p =>
        "| " ++ padRight p.1 10 ++ " | " ++ padRight (toString p.2) 5 ++ " |\n")) ++
      "\n\n"
  else ""

/-- Rendering-time filter of `save_metadata`, applied after the
`list(set(...))` deduplication: keep a link unless it starts with the URL
stripped of trailing slashes, starts with a hash, starts with `tel:`, or is
empty after stripping. -/
def keepExternalLink (domain : String) (l : String) : Bool :=
  !pyStartsWith l domain && !pyStartsWith l "#" && !pyStartsWith l "tel:" &&
    decide (pyStrip l ≠ "")

/-- Deduplicated-then-filtered external links of `save_metadata`.  The
`setList` parameter models the iteration order of a CPython `set` built from
the list, which is fixed within one interpreter process. -/
def filteredExternalLinks (setList : List String → List String)
    (m : MetadataRecord) : List String :=
  (setList m.external_links).filter (keepExternalLink (pyRstripSlash m.url))

/-- External-links block of `save_metadata`: emitted when the deduplicated and
filtered list is non-empty. -/
def externalLinksBlock (setList : List String → List String)
    (m : MetadataRecord) : String :=
  let kept := filteredExternalLinks setList m
  if kept ≠ [] then
    "**External links:**\n\n" ++
      String.join (kept.map (fun l => "- " ++ l ++ "\n")) ++ "\n"
  else ""

/-- Document content written by `save_metadata`.  Both branches of the Title
conditional and both branches of the Description conditional in the source
write the same line, which the embedding reflects by writing it
unconditionally. -/
def renderContent (setList : List String → List String) (m : MetadataRecord) :
    String :=
  "# " ++ m.url ++ "\n\n" ++
  "**Title:** " ++ m.title ++ "\n\n" ++
  "**Description:** " ++ m.description ++ "\n\n" ++
  "**Keywords:** " ++ m.keywords ++ "\n\n" ++
  "**Author:** " ++ m.author ++ "\n\n" ++
  ogImageBlock m ++
  topWordsBlock m ++
  externalLinksBlock setList m

/-- Concrete instantiation of the `setList` parameter: deduplication keeping
first occurrences (one possible iteration order of a CPython set). -/
def setListModel (xs : List String) : List String := dedupFirst xs

/-- Hexadecimal digit, for JSON control-character escapes. -/
def hexDigit (n : Nat) : Char :=
  if n < 10 then Char.ofNat (48 + n) else Char.ofNat (87 + n)

/-- Escape of one character as `json.dumps` (with `ensure_ascii=False`)
performs it. -/
def jsonEscapeChar (c : Char) : String :=
  if c == '"' then "\\\""
  else if c == '\\' then "\\\\"
  else if c == '\n' then "\\n"
  else if c == '\r' then "\\r"
  else if c == '\t' then "\\t"
  else if c.toNat == 8 then "\\b"
  else if c.toNat == 12 then "\\f"
  else if c.toNat < 32 then
    "\\u00" ++ String.mk [hexDigit (c.toNat / 16), hexDigit (c.toNat % 16)]
  else String.singleton c

/-- Model of `json.dumps` on a string (`ensure_ascii=False`). -/
def jsonDumpsStr (s : String) : String :=
  "\"" ++ String.join (s.data.map jsonEscapeChar) ++ "\""

/-- Model of `json.dumps` on a list of strings (`ensure_ascii=False`). -/
def jsonDumpsList (xs : List String) : String :=
  "[" ++ ", ".intercalate (xs.map jsonDumpsStr) ++ "]"

/-- Model of `json.dumps` on the `top_words` dict (`ensure_ascii=False`). -/
def jsonDumpsWordCounts (ps : List (String × Nat)) : String :=
  "\x7b" ++ ", ".intercalate (ps.map (fun p => jsonDumpsStr p.1 ++ ": " ++ toString p.2)) ++ "\x7d"

/-- Header row written by `save_to_csv`. -/
def csvHeader : List String :=
  ["url", "title", "description", "keywords", "author", "og_image",
   "top_words", "external_links"]

/-- Data row written by `save_to_csv` for one record, cells in the fixed
column order of the source. -/
def csvRow (m : MetadataRecord) : List String :=
  [m.url, m.title, m.description, m.keywords, m.author, m.og_image,
   jsonDumpsWordCounts m.top_words, jsonDumpsList m.external_links]

/-- Rows of the tabular file produced by `save_to_csv`: one header row then
one data row per record. -/
def save_to_csv (ms : List MetadataRecord) : List (List String) :=
  csvHeader :: ms.map csvRow

/-- File name used by `save_to_csv`. -/
def csvFileName (base ts : String) : String :=
  (base.replace ".csv" "") ++ "_" ++ ts ++ ".csv"

/-- Outcome of one attempted per-page file write. -/
inductive WriteOutcome
  | ok
  | failed
deriving DecidableEq

/-- Model of `save_metadata`: the write is attempted and any exception is
caught by its `except Exception` clause, so the call always returns; the
result is the log line printed and the content written, when any. -/
def save_metadata (w : WriteOutcome) (folder ts : String)
    (setList : List String → List String) (m : MetadataRecord) :
    String × Option String :=
  match w with
  | WriteOutcome.ok =>
    ("Saved to [" ++ renderFileName folder ts m ++ "]", some (renderContent setList m))
  | WriteOutcome.failed =>
    ("Error saving metadata for " ++ m.url, none)

/-- Accumulation loop of `process_urls`: fetch each URL in order; on a failed
fetch the URL is skipped; on success the per-page write is attempted (its
failure is recovered inside `save_metadata`) and the record is appended. -/
def processLoop (fetch : String → Option MetadataRecord)
    (write : String → WriteOutcome) (folder ts : String)
    (setList : List String → List String) : List String → List MetadataRecord
  | [] => []
  | u :: us =>
    match fetch u with
    | none => processLoop fetch write folder ts setList us
    | some m =>
      let _ := save_metadata (write u) folder ts setList m
      m :: processLoop fetch write folder ts setList us

/-- Model of `process_urls`: the accumulated records, and the rows of the
tabular export when the accumulation is non-empty (`save_to_csv` is called
only under `if metadata_list:`). -/
def process_urls (fetch : String → Option MetadataRecord)
    (write : String → WriteOutcome) (folder ts : String)
    (setList : List String → List String) (urls : List String) :
    List MetadataRecord × Option (List (List String)) :=
  let ms := processLoop fetch write folder ts setList urls
  (ms, if ms ≠ [] then some (save_to_csv ms) else none)

/-- JSON value as produced by `json.load`. -/
inductive JsonVal
  | null
  | bool (b : Bool)
  | num (n : Int)
  | str (s : String)
  | arr (xs : List JsonVal)
  | obj (fields : List (String × JsonVal))

/-- Observable outcome of opening and JSON-decoding the configuration file. -/
inductive ConfigSource
  | missing          -- `open` raises FileNotFoundError
  | unreadable       -- `open` raises PermissionError
  | unparseable      -- `json.load` raises json.JSONDecodeError
  | parsed (j : JsonVal)  -- `json.load` returns the value `j`

/-- Exception escaping `load_websites` (its `except` clause catches only
`FileNotFoundError` and `json.JSONDecodeError`). -/
inductive LoadError
  | permissionError
  | attributeError
deriving DecidableEq

/-- Model of Python `dict.get(k, d)`. -/
def dictGet (fields : List (String × JsonVal)) (k : String) (d : JsonVal) : JsonVal :=
  match fields.find? (fun p => p.1 == k) with
  | some p => p.2
  | none => d

/-- Result of a completed `load_websites` call: the two returned values, and
whether the diagnostic line was printed. -/
structure LoadResult where
  urls : JsonVal
  partisans : JsonVal
  diagnostic : Bool

/-- Shallow embedding of `load_websites`.  A missing file or a JSON syntax
error is caught and degrades to two empty lists plus a diagnostic; a
permission error on `open`, or a parsed top-level value that is not an object
(no `.get` attribute), escapes uncaught. -/
def load_websites : ConfigSource → Except LoadError LoadResult
  | ConfigSource.missing => Except.ok ⟨JsonVal.arr [], JsonVal.arr [], true⟩
  | ConfigSource.unparseable => Except.ok ⟨JsonVal.arr [], JsonVal.arr [], true⟩
  | ConfigSource.unreadable => Except.error LoadError.permissionError
  | ConfigSource.parsed (JsonVal.obj fs) =>
    Except.ok ⟨dictGet fs "urls" (JsonVal.arr []),
               dictGet fs "partisans_urls" (JsonVal.arr []), false⟩
  | ConfigSource.parsed _ => Except.error LoadError.attributeError

/-- Concrete document whose title element is present but empty (its `.string`
is Python `None`). -/
def emptyTitleDoc : HtmlDoc := ⟨some none, [], [], [], [], []⟩

/-- Concrete document with a stringy title, a description element and a short
text, used to witness extraction claims. -/
def sampleDoc : HtmlDoc :=
  ⟨some (some " Hi "),
   [⟨some "description", none, some " greetings "⟩],
   [],
   ["hello hello world и 7 x"],
   [],
   []⟩

/-- Concrete document with one anchor whose query string contains the source
page's authority. -/
def queryLinkDoc : HtmlDoc := ⟨none, [], [], [], [], [some "https://b.com/?x=a.com"]⟩

/-- Concrete document with two anchors, for the empty-authority claim. -/
def twoLinkDoc : HtmlDoc := ⟨none, [], [], [], [], [some "#x", some "https://z.com"]⟩

/-- Concrete record with duplicate, self-referencing, anchor, telephone and
blank external links, for the rendering-filter claim. -/
def linksRecord : MetadataRecord :=
  ⟨"https://me.com", "T", noData, noData, noData, noData, noData, noData, noData,
   [], [], [],
   ["https://x.com", "https://x.com", "#a", " ", "https://me.com/about", "tel:123"]⟩

/-- Concrete record used by orchestration witnesses. -/
def okRecord : MetadataRecord :=
  ⟨"https://a.com", "T", noData, noData, noData, noData, noData, noData, noData,
   [], [], [], []⟩

/-- Fetch oracle succeeding only on one URL. -/
def oneFetch (u : String) : Option MetadataRecord :=
  if u = "https://a.com" then some okRecord else none

/-- Write oracle that fails on every URL. -/
def alwaysFailWrite : String → WriteOutcome := fun _ => WriteOutcome.failed

/-- Write oracle that succeeds on every URL. -/
def alwaysOkWrite : String → WriteOutcome := fun _ => WriteOutcome.ok

/-- Fetch oracle that fails on every URL. -/
def noneFetch : String → Option MetadataRecord := fun _ => none

/-- Concrete record for the export-shape witness. -/
def exportRecord : MetadataRecord :=
  ⟨"https://b.org", "U", noData, noData, noData, noData, noData, noData, noData,
   [("hi", 2)], [], [], ["https://q.com"]⟩

/-- Fetch oracle for the export-shape witness. -/
def exportFetch (u : String) : Option MetadataRecord :=
  if u = "https://b.org" then some exportRecord else none

/-- Concrete document with repeated words, a stopword, a digit token and a
one-letter token, used to witness the word-frequency claim. -/
def wordsDoc : HtmlDoc :=
  ⟨some (some "T"), [], [], ["hello hello world и 7 x"], [], []⟩

/-- Drop condition of the specification for rendered external links: the link
starts with the record's URL stripped of trailing slashes, starts with a hash,
starts with `tel:`, or is empty or whitespace-only. -/
def specDropCondition (m : MetadataRecord) (l : String) : Prop :=
  (pyRstripSlash m.url).data <+: l.data ∨ ("#").data <+: l.data ∨
    ("tel:").data <+: l.data ∨ pyStrip l = ""

theorem listInfixB_iff (n : List Char) : ∀ h : List Char, listInfixB n h = true ↔ n <:+: h := by
  intro h
  induction h with
  | nil => simp [listInfixB, List.isEmpty_iff]
  | cons c t ih =>
    rw [listInfixB, Bool.or_eq_true, List.isPrefixOf_iff_prefix, ih,
      List.infix_cons_iff]

theorem pyInStr_iff (sub s : String) : pyInStr sub s = true ↔ sub.data <:+: s.data :=
  listInfixB_iff sub.data s.data

theorem listInfixB_nil_left : ∀ h : List Char, listInfixB [] h = true := by
  intro h
  cases h with
  | nil => rfl
  | cons c t => simp [listInfixB, List.isPrefixOf]

theorem pyInStr_empty (s : String) : pyInStr "" s = true :=
  listInfixB_nil_left s.data

theorem pyStartsWith_iff (s p : String) : pyStartsWith s p = true ↔ p.data <+: s.data :=
  List.isPrefixOf_iff_prefix

theorem extractMetadata_none (nfkc : String → String) (url : String) (doc : HtmlDoc)
    (h : doc.titleTag = none) :
    extractMetadata nfkc url doc = Except.ok (buildRecord nfkc url doc noData) := by
  unfold extractMetadata
  rw [h]
  rfl

theorem extractMetadata_some (nfkc : String → String) (url : String) (doc : HtmlDoc)
    (s : String) (h : doc.titleTag = some (some s)) :
    extractMetadata nfkc url doc = Except.ok (buildRecord nfkc url doc (pyStrip s)) := by
  unfold extractMetadata
  rw [h]
  rfl

theorem extractMetadata_err (nfkc : String → String) (url : String) (doc : HtmlDoc)
    (h : doc.titleTag = some none) :
    extractMetadata nfkc url doc = Except.error PyError.attributeError := by
  unfold extractMetadata
  rw [h]
  rfl

theorem extractMetadata_ok_build (nfkc : String → String) (url : String)
    (doc : HtmlDoc) (rec : MetadataRecord)
    (h : extractMetadata nfkc url doc = Except.ok rec) :
    ∃ t, rec = buildRecord nfkc url doc t := by
  rcases hd : doc.titleTag with _ | os
  · rw [extractMetadata_none nfkc url doc hd] at h
    exact ⟨noData, (Except.ok.inj h).symm⟩
  · rcases os with _ | s
    · rw [extractMetadata_err nfkc url doc hd] at h
      simp at h
    · rw [extractMetadata_some nfkc url doc s hd] at h
      exact ⟨pyStrip s, (Except.ok.inj h).symm⟩

theorem buildRecord_title (nfkc : String → String) (url : String) (doc : HtmlDoc)
    (t : String) : (buildRecord nfkc url doc t).title = nfkc t := rfl

theorem buildRecord_internal (nfkc : String → String) (url : String) (doc : HtmlDoc)
    (t : String) :
    (buildRecord nfkc url doc t).internal_links =
      (doc.aHrefs.filterMap id).filter
        (fun l => pyInStr (urlNetloc url) l || pyStartsWith l "/") := rfl

theorem buildRecord_external (nfkc : String → String) (url : String) (doc : HtmlDoc)
    (t : String) :
    (buildRecord nfkc url doc t).external_links =
      (doc.aHrefs.filterMap id).filter
        (fun l => !pyInStr (urlNetloc url) l && !pyStartsWith l "/") := rfl

theorem buildRecord_top_words (nfkc : String → String) (url : String) (doc : HtmlDoc)
    (t : String) :
    (buildRecord nfkc url doc t).top_words =
      mostCommon 20 (filteredWords (docTokens doc)) := rfl

theorem metaByName_isStrip (doc : HtmlDoc) (n : String) :
    ∃ raw, metaByName doc n = pyStrip raw := ⟨_, rfl⟩

theorem metaByProp_isStrip (doc : HtmlDoc) (p : String) :
    ∃ raw, metaByProp doc p = pyStrip raw := ⟨_, rfl⟩

theorem canonicalField_isStrip (doc : HtmlDoc) :
    ∃ raw, canonicalField doc = pyStrip raw := ⟨_, rfl⟩

/-- C1 (counterexample): a parseable document whose title element is present
but empty makes extraction raise an uncaught `AttributeError` instead of
producing the sentinel, refuting both "extraction completes without raising"
and "an empty title element yields the sentinel". -/
theorem c1_counterexample :
    emptyTitleDoc.titleTag = some none ∧
    extractMetadata id "https://example.com" emptyTitleDoc =
      Except.error PyError.attributeError :=
  ⟨rfl, extractMetadata_err id "https://example.com" emptyTitleDoc rfl⟩

/-- C1 (amended): for every URL and every parseable document whose title
element, when present, has a direct string content, extraction completes
without raising, and every string field of the record is an extracted trimmed
value or the sentinel (each as passed through the final NFKC step); a document
with no title element yields the sentinel for the title.  The unamended claim
fails when the title element is present but empty (`c1_counterexample`). -/
theorem c1_extraction_total (nfkc : String → String) (url : String) (doc : HtmlDoc)
    (h : doc.titleTag ≠ some none) :
    ∃ rec, extractMetadata nfkc url doc = Except.ok rec ∧
      extractedOrSentinel nfkc rec.title ∧
      extractedOrSentinel nfkc rec.description ∧
      extractedOrSentinel nfkc rec.keywords ∧
      extractedOrSentinel nfkc rec.author ∧
      extractedOrSentinel nfkc rec.og_title ∧
      extractedOrSentinel nfkc rec.og_description ∧
      extractedOrSentinel nfkc rec.og_image ∧
      extractedOrSentinel nfkc rec.canonical ∧
      (doc.titleTag = none → rec.title = nfkc noData) ∧
      (∀ s, doc.titleTag = some (some s) → rec.title = nfkc (pyStrip s)) := by
  have hname : ∀ n, extractedOrSentinel nfkc (nfkc (metaByName doc n)) := by
    intro n
    obtain ⟨raw, hr⟩ := metaByName_isStrip doc n
    exact Or.inl ⟨raw, by rw [hr]⟩
  have hprop : ∀ p, extractedOrSentinel nfkc (nfkc (metaByProp doc p)) := by
    intro p
    obtain ⟨raw, hr⟩ := metaByProp_isStrip doc p
    exact Or.inl ⟨raw, by rw [hr]⟩
  have hcanon : extractedOrSentinel nfkc (nfkc (canonicalField doc)) := by
    obtain ⟨raw, hr⟩ := canonicalField_isStrip doc
    exact Or.inl ⟨raw, by rw [hr]⟩
  rcases hd : doc.titleTag with _ | os
  · refine ⟨buildRecord nfkc url doc noData, extractMetadata_none nfkc url doc hd,
      Or.inr rfl, hname _, hname _, hname _, hprop _, hprop _, hprop _, hcanon,
      fun _ => rfl, ?_⟩
    intro s hs
    exact Option.noConfusion hs
  · rcases os with _ | s
    · exact absurd hd h
    · refine ⟨buildRecord nfkc url doc (pyStrip s), extractMetadata_some nfkc url doc s hd,
        Or.inl ⟨s, rfl⟩, hname _, hname _, hname _, hprop _, hprop _, hprop _, hcanon,
        ?_, ?_⟩
      · intro hnone
        exact Option.noConfusion hnone
      · intro s2 hs2
        rw [buildRecord_title, (Option.some.inj (Option.some.inj hs2))]

/-- Witness for the amended C1 at a concrete document with title, description
and text content. -/
theorem c1_witness :
    sampleDoc.titleTag ≠ some none ∧
    (∃ rec, extractMetadata id "https://example.com" sampleDoc = Except.ok rec ∧
      extractedOrSentinel id rec.title ∧
      extractedOrSentinel id rec.description ∧
      extractedOrSentinel id rec.keywords ∧
      extractedOrSentinel id rec.author ∧
      extractedOrSentinel id rec.og_title ∧
      extractedOrSentinel id rec.og_description ∧
      extractedOrSentinel id rec.og_image ∧
      extractedOrSentinel id rec.canonical ∧
      (sampleDoc.titleTag = none → rec.title = id noData) ∧
      (∀ s, sampleDoc.titleTag = some (some s) → rec.title = id (pyStrip s))) :=
  ⟨by decide, c1_extraction_total id "https://example.com" sampleDoc (by decide)⟩

/-- C2 (counterexample): link classification is a substring test on the whole
link string, not on the link's own authority.  For source `https://a.com` the
link `https://b.com/?x=a.com` has authority `b.com`, which does not contain
`a.com`, and the link does not start with a slash, so the claim requires it to
be external; the code puts it in `internal_links`. -/
theorem c2_counterexample :
    extractMetadata id "https://a.com" queryLinkDoc =
      Except.ok (buildRecord id "https://a.com" queryLinkDoc noData) ∧
    "https://b.com/?x=a.com" ∈
      (buildRecord id "https://a.com" queryLinkDoc noData).internal_links ∧
    "https://b.com/?x=a.com" ∉
      (buildRecord id "https://a.com" queryLinkDoc noData).external_links ∧
    ¬((urlNetloc "https://a.com").data <:+: (urlNetloc "https://b.com/?x=a.com").data) ∧
    pyStartsWith "https://b.com/?x=a.com" "/" = false := by
  refine ⟨extractMetadata_none id "https://a.com" queryLinkDoc rfl, ?_, ?_, ?_, ?_⟩
  · rw [buildRecord_internal]
    decide
  · rw [buildRecord_external]
    decide
  · intro hinf
    have hb := (listInfixB_iff (urlNetloc "https://a.com").data
      (urlNetloc "https://b.com/?x=a.com").data).mpr hinf
    revert hb
    decide
  · decide

/-- C2 (amended): a link is placed in `internal_links` iff the whole link
string contains the source URL's authority as a substring or the link starts
with a slash, and is placed in `external_links` iff it is an extracted link
satisfying neither condition. -/
theorem c2_link_partition (nfkc : String → String) (url : String) (doc : HtmlDoc)
    (rec : MetadataRecord) (h : extractMetadata nfkc url doc = Except.ok rec)
    (l : String) :
    (l ∈ rec.internal_links ↔
      l ∈ doc.aHrefs.filterMap id ∧
        ((urlNetloc url).data <:+: l.data ∨ ("/").data <+: l.data)) ∧
    (l ∈ rec.external_links ↔
      l ∈ doc.aHrefs.filterMap id ∧
        ¬((urlNetloc url).data <:+: l.data ∨ ("/").data <+: l.data)) := by
  obtain ⟨t, rfl⟩ := extractMetadata_ok_build nfkc url doc rec h
  rw [buildRecord_internal, buildRecord_external]
  constructor
  · rw [List.mem_filter, Bool.or_eq_true, pyInStr_iff, pyStartsWith_iff]
  · simp only [List.mem_filter, Bool.and_eq_true, Bool.not_eq_true']
    constructor
    · rintro ⟨hm, hni, hns⟩
      refine ⟨hm, ?_⟩
      rintro (hi | hs)
      · exact absurd (hni.symm.trans ((pyInStr_iff _ _).mpr hi)) Bool.false_ne_true
      · exact absurd (hns.symm.trans ((pyStartsWith_iff _ _).mpr hs)) Bool.false_ne_true
    · rintro ⟨hm, hn⟩
      refine ⟨hm, Bool.eq_false_iff.mpr ?_, Bool.eq_false_iff.mpr ?_⟩
      · intro hi
        exact hn (Or.inl ((pyInStr_iff _ _).mp hi))
      · intro hs
        exact hn (Or.inr ((pyStartsWith_iff _ _).mp hs))

/-- Witness for the amended C2 at the concrete query-string document. -/
theorem c2_witness :
    extractMetadata id "https://a.com" queryLinkDoc =
      Except.ok (buildRecord id "https://a.com" queryLinkDoc noData) ∧
    (("https://b.com/?x=a.com" ∈
        (buildRecord id "https://a.com" queryLinkDoc noData).internal_links ↔
      "https://b.com/?x=a.com" ∈ queryLinkDoc.aHrefs.filterMap id ∧
        ((urlNetloc "https://a.com").data <:+: "https://b.com/?x=a.com".data ∨
          ("/").data <+: "https://b.com/?x=a.com".data)) ∧
    ("https://b.com/?x=a.com" ∈
        (buildRecord id "https://a.com" queryLinkDoc noData).external_links ↔
      "https://b.com/?x=a.com" ∈ queryLinkDoc.aHrefs.filterMap id ∧
        ¬((urlNetloc "https://a.com").data <:+: "https://b.com/?x=a.com".data ∨
          ("/").data <+: "https://b.com/?x=a.com".data))) :=
  ⟨extractMetadata_none id "https://a.com" queryLinkDoc rfl,
   c2_link_partition id "https://a.com" queryLinkDoc
     (buildRecord id "https://a.com" queryLinkDoc noData)
     (extractMetadata_none id "https://a.com" queryLinkDoc rfl)
     "https://b.com/?x=a.com"⟩

/-- C10: when the source URL parses to an empty authority, the Python
substring test `"" in link` is true for every link, so every extracted link is
classified internal and `external_links` is empty. -/
theorem c10_empty_netloc (nfkc : String → String) (url : String) (doc : HtmlDoc)
    (rec : MetadataRecord) (hn : urlNetloc url = "")
    (h : extractMetadata nfkc url doc = Except.ok rec) :
    rec.internal_links = doc.aHrefs.filterMap id ∧ rec.external_links = [] := by
  obtain ⟨t, rfl⟩ := extractMetadata_ok_build nfkc url doc rec h
  rw [buildRecord_internal, buildRecord_external, hn]
  constructor
  · apply List.filter_eq_self.mpr
    intro a _
    rw [pyInStr_empty a, Bool.true_or]
  · apply List.filter_eq_nil_iff.mpr
    intro a _
    rw [pyInStr_empty a]
    simp

/-- Witness for C10 at a URL with no authority component and a document with
two anchors. -/
theorem c10_witness :
    urlNetloc "example.com/path" = "" ∧
    extractMetadata id "example.com/path" twoLinkDoc =
      Except.ok (buildRecord id "example.com/path" twoLinkDoc noData) ∧
    (buildRecord id "example.com/path" twoLinkDoc noData).internal_links =
      twoLinkDoc.aHrefs.filterMap id ∧
    (buildRecord id "example.com/path" twoLinkDoc noData).external_links = [] := by
  refine ⟨rfl, extractMetadata_none id "example.com/path" twoLinkDoc rfl, ?_⟩
  exact c10_empty_netloc id "example.com/path" twoLinkDoc
    (buildRecord id "example.com/path" twoLinkDoc noData) rfl
    (extractMetadata_none id "example.com/path" twoLinkDoc rfl)

/-- C5: the renderer is a pure function of the record, the date-stamp, the
output folder, and the process's fixed set-iteration order; rendering the same
record twice under the same date-stamp produces byte-identical file name and
content. -/
theorem c5_render_deterministic (setList : List String → List String)
    (folder ts : String) (m : MetadataRecord) :
    renderFileName folder ts m = renderFileName folder ts m ∧
    renderContent setList m = renderContent setList m :=
  ⟨rfl, rfl⟩

/-- C6 (counterexample): an unreadable configuration file raises a
`PermissionError` that `load_websites` does not catch, and a parseable
configuration whose top level is not an object raises an uncaught
`AttributeError`; either terminates the run instead of degrading to two empty
lists. -/
theorem c6_counterexample :
    load_websites ConfigSource.unreadable = Except.error LoadError.permissionError ∧
    load_websites (ConfigSource.parsed (JsonVal.arr [])) =
      Except.error LoadError.attributeError :=
  ⟨rfl, rfl⟩

/-- C6 (amended): a missing configuration file or a file whose content is not
parseable JSON degrades to two empty URL lists plus a diagnostic and the run
proceeds; an unreadable file, or a parsed top-level value that is not an
object, instead raises an uncaught exception (`c6_counterexample`). -/
theorem c6_load_recovers (src : ConfigSource)
    (h : src = ConfigSource.missing ∨ src = ConfigSource.unparseable) :
    load_websites src = Except.ok ⟨JsonVal.arr [], JsonVal.arr [], true⟩ := by
  rcases h with rfl | rfl <;> rfl

/-- Witness for the amended C6 at the missing-file outcome. -/
theorem c6_witness :
    (ConfigSource.missing = ConfigSource.missing ∨
      ConfigSource.missing = ConfigSource.unparseable) ∧
    load_websites ConfigSource.missing =
      Except.ok ⟨JsonVal.arr [], JsonVal.arr [], true⟩ :=
  ⟨Or.inl rfl, c6_load_recovers ConfigSource.missing (Or.inl rfl)⟩

theorem processLoop_eq_filterMap (fetch : String → Option MetadataRecord)
    (write : String → WriteOutcome) (folder ts : String)
    (setList : List String → List String) :
    ∀ urls : List String,
      processLoop fetch write folder ts setList urls = urls.filterMap fetch := by
  intro urls
  induction urls with
  | nil => rfl
  | cons u us ih =>
    cases hf : fetch u with
    | none => simp [processLoop, hf, ih, List.filterMap_cons]
    | some m => simp [processLoop, hf, ih, List.filterMap_cons]

theorem process_urls_fst (fetch : String → Option MetadataRecord)
    (write : String → WriteOutcome) (folder ts : String)
    (setList : List String → List String) (urls : List String) :
    (process_urls fetch write folder ts setList urls).1 =
      processLoop fetch write folder ts setList urls := rfl

theorem process_urls_snd (fetch : String → Option MetadataRecord)
    (write : String → WriteOutcome) (folder ts : String)
    (setList : List String → List String) (urls : List String) :
    (process_urls fetch write folder ts setList urls).2 =
      if processLoop fetch write folder ts setList urls ≠ [] then
        some (save_to_csv (processLoop fetch write folder ts setList urls))
      else none := rfl

/-- C7: a per-page write failure is recovered inside `save_metadata`, every
URL is still processed (the accumulation equals the fetch-filtered URL list),
the record remains in the accumulation, and its row is passed to the tabular
export. -/
theorem c7_failed_write_keeps_record (fetch : String → Option MetadataRecord)
    (write : String → WriteOutcome) (folder ts : String)
    (setList : List String → List String) (urls : List String) (u : String)
    (m : MetadataRecord) (hu : u ∈ urls) (hf : fetch u = some m)
    (hw : write u = WriteOutcome.failed) :
    (process_urls fetch write folder ts setList urls).1 = urls.filterMap fetch ∧
    m ∈ (process_urls fetch write folder ts setList urls).1 ∧
    ∃ rows, (process_urls fetch write folder ts setList urls).2 = some rows ∧
      csvRow m ∈ rows := by
  have h1 : (process_urls fetch write folder ts setList urls).1 = urls.filterMap fetch := by
    rw [process_urls_fst, processLoop_eq_filterMap]
  have hm : m ∈ urls.filterMap fetch := List.mem_filterMap.mpr ⟨u, hu, hf⟩
  have hm2 : m ∈ processLoop fetch write folder ts setList urls := by
    rw [processLoop_eq_filterMap]
    exact hm
  have hne : processLoop fetch write folder ts setList urls ≠ [] := by
    intro h0
    rw [h0] at hm2
    exact absurd hm2 (List.not_mem_nil m)
  refine ⟨h1, by rw [process_urls_fst]; exact hm2,
    save_to_csv (processLoop fetch write folder ts setList urls), ?_, ?_⟩
  · rw [process_urls_snd, if_pos hne]
  · exact List.mem_cons_of_mem _ (List.mem_map_of_mem csvRow hm2)

/-- Witness for C7: one fetchable URL whose write fails, one failing URL; the
record is accumulated and exported anyway. -/
theorem c7_witness :
    okRecord ∈ (process_urls oneFetch alwaysFailWrite "output" "20260101"
      setListModel ["https://a.com", "https://down.com"]).1 ∧
    (process_urls oneFetch alwaysFailWrite "output" "20260101" setListModel
      ["https://a.com", "https://down.com"]).2 ≠ none := by
  obtain ⟨h1, h2, rows, hr, hm⟩ := c7_failed_write_keeps_record oneFetch alwaysFailWrite
    "output" "20260101" setListModel ["https://a.com", "https://down.com"]
    "https://a.com" okRecord (by decide) rfl rfl
  refine ⟨h2, ?_⟩
  rw [hr]
  simp

/-- C8: no tabular file is written for an empty accumulation; otherwise the
export is one header row followed by exactly one data row per record, each row
in the fixed column order of `csvRow`. -/
theorem c8_csv_shape (fetch : String → Option MetadataRecord)
    (write : String → WriteOutcome) (folder ts : String)
    (setList : List String → List String) (urls : List String) :
    ((process_urls fetch write folder ts setList urls).1 = [] →
      (process_urls fetch write folder ts setList urls).2 = none) ∧
    ((process_urls fetch write folder ts setList urls).1 ≠ [] →
      (process_urls fetch write folder ts setList urls).2 =
        some (csvHeader ::
          (process_urls fetch write folder ts setList urls).1.map csvRow)) ∧
    (∀ rows, (process_urls fetch write folder ts setList urls).2 = some rows →
      rows.length = (process_urls fetch write folder ts setList urls).1.length + 1 ∧
      rows.head? = some csvHeader ∧
      rows.tail = (process_urls fetch write folder ts setList urls).1.map csvRow) := by
  rw [process_urls_fst, process_urls_snd]
  generalize processLoop fetch write folder ts setList urls = ms
  refine ⟨?_, ?_, ?_⟩
  · intro h0
    rw [if_neg (not_not_intro h0)]
  · intro hne
    rw [if_pos hne]
    rfl
  · intro rows hr
    by_cases h0 : ms = []
    · rw [if_neg (not_not_intro h0)] at hr
      cases hr
    · rw [if_pos h0] at hr
      have hrows : save_to_csv ms = rows := Option.some.inj hr
      subst hrows
      refine ⟨?_, rfl, rfl⟩
      simp [save_to_csv]

/-- Witness for C8: an all-failing fetch yields no export; a one-record batch
yields a header plus one row. -/
theorem c8_witness :
    (process_urls noneFetch alwaysOkWrite "output" "20260101" setListModel
      ["https://a.com"]).2 = none ∧
    (process_urls exportFetch alwaysOkWrite "output" "20260101" setListModel
      ["https://b.org"]).2 =
      some (csvHeader :: (process_urls exportFetch alwaysOkWrite "output" "20260101"
        setListModel ["https://b.org"]).1.map csvRow) :=
  ⟨(c8_csv_shape noneFetch alwaysOkWrite "output" "20260101" setListModel
      ["https://a.com"]).1 rfl,
   (c8_csv_shape exportFetch alwaysOkWrite "output" "20260101" setListModel
      ["https://b.org"]).2.1 (by decide)⟩

theorem firstIdx_getElem? (ws : List String) (w : String) (h : w ∈ ws) :
    ws[firstIdx ws w]? = some w := by
  induction ws with
  | nil => cases h
  | cons x t ih =>
    by_cases hwx : w = x
    · subst hwx
      simp [firstIdx]
    · have ht : w ∈ t := List.mem_of_ne_of_mem hwx h
      simp [firstIdx, hwx, ih ht]

theorem firstIdx_inj (ws : List String) (a b : String) (ha : a ∈ ws) (hb : b ∈ ws)
    (h : firstIdx ws a = firstIdx ws b) : a = b := by
  have h1 := firstIdx_getElem? ws a ha
  have h2 := firstIdx_getElem? ws b hb
  rw [h] at h1
  exact Option.some.inj (h1.symm.trans h2)

theorem dedupFirst_mem (ws : List String) (w : String) :
    w ∈ dedupFirst ws ↔ w ∈ ws := by
  unfold dedupFirst
  constructor
  · intro h
    obtain ⟨p, hp, hpe⟩ := List.mem_map.mp h
    obtain ⟨hpm, _⟩ := List.mem_filter.mp hp
    have hg := List.mem_enum_iff_getElem?.mp hpm
    rw [hpe] at hg
    exact List.getElem?_mem hg
  · intro h
    apply List.mem_map.mpr
    refine ⟨(firstIdx ws w, w), ?_, rfl⟩
    apply List.mem_filter.mpr
    refine ⟨?_, ?_⟩
    · exact List.mem_enum_iff_getElem?.mpr (firstIdx_getElem? ws w h)
    · exact beq_self_eq_true (firstIdx ws w)

theorem string_append_ne_empty_left (s t : String) (h : s ≠ "") : s ++ t ≠ "" := by
  intro he
  apply h
  have hd := congrArg String.data he
  rw [String.data_append] at hd
  obtain ⟨h1, -⟩ := List.append_eq_nil.mp hd
  cases s
  cases h1
  rfl

/-- C9: rendering deduplicates `external_links` with set semantics, then drops
exactly the links that start with the record's URL stripped of trailing
slashes, start with a hash, start with `tel:`, or are empty after stripping;
the "External links" section is emitted exactly when the remaining list is
non-empty.  `setList` is the process's set-iteration order, assumed to
preserve the members. -/
theorem c9_external_links_rendering (setList : List String → List String)
    (m : MetadataRecord) (hs : ∀ xs x, x ∈ setList xs ↔ x ∈ xs) :
    (externalLinksBlock setList m ≠ "" ↔ filteredExternalLinks setList m ≠ []) ∧
    (∀ l, l ∈ filteredExternalLinks setList m ↔
      l ∈ m.external_links ∧ ¬specDropCondition m l) := by
  constructor
  · show (if filteredExternalLinks setList m ≠ [] then _ else "") ≠ "" ↔ _
    by_cases hk : filteredExternalLinks setList m = []
    · rw [if_neg (not_not_intro hk)]
      simp [hk]
    · rw [if_pos hk]
      constructor
      · intro _
        exact hk
      · intro _
        exact string_append_ne_empty_left "**External links:**\n\n" _ (by decide)
  · intro l
    unfold filteredExternalLinks
    rw [List.mem_filter, hs]
    unfold keepExternalLink
    simp only [Bool.and_eq_true, Bool.not_eq_true', decide_eq_true_eq, and_assoc]
    constructor
    · rintro ⟨hm, hd, hh, ht, hne⟩
      refine ⟨hm, ?_⟩
      rintro (h1 | h2 | h3 | h4)
      · exact absurd (hd.symm.trans ((pyStartsWith_iff _ _).mpr h1)) Bool.false_ne_true
      · exact absurd (hh.symm.trans ((pyStartsWith_iff _ _).mpr h2)) Bool.false_ne_true
      · exact absurd (ht.symm.trans ((pyStartsWith_iff _ _).mpr h3)) Bool.false_ne_true
      · exact hne h4
    · rintro ⟨hm, hn⟩
      unfold specDropCondition at hn
      push_neg at hn
      refine ⟨hm, Bool.eq_false_iff.mpr ?_, Bool.eq_false_iff.mpr ?_,
        Bool.eq_false_iff.mpr ?_, hn.2.2.2⟩
      · intro hb
        exact hn.1 ((pyStartsWith_iff _ _).mp hb)
      · intro hb
        exact hn.2.1 ((pyStartsWith_iff _ _).mp hb)
      · intro hb
        exact hn.2.2.1 ((pyStartsWith_iff _ _).mp hb)

/-- Witness for C9 at a concrete record with duplicate and droppable links. -/
theorem c9_witness :
    externalLinksBlock setListModel linksRecord ≠ "" ∧
    filteredExternalLinks setListModel linksRecord ≠ [] :=
  ⟨(c9_external_links_rendering setListModel linksRecord
      (fun xs x => dedupFirst_mem xs x)).1.mpr (by decide),
   by decide⟩

theorem pair_sublist_of_pairwise {α : Type} {R : α → α → Prop}
    (htrans : ∀ x y z, R x y → R y z → R x z) (hirr : ∀ x, ¬R x x) :
    ∀ (L : List α) (a b : α), L.Pairwise R → a ∈ L → b ∈ L → R a b →
      [a, b].Sublist L := by
  intro L
  induction L with
  | nil =>
    intro a b _ ha _ _
    exact absurd ha (List.not_mem_nil a)
  | cons x t ih =>
    intro a b hpw ha hb hab
    obtain ⟨hx, ht⟩ := List.pairwise_cons.mp hpw
    by_cases hax : a = x
    · subst hax
      have hbt : b ∈ t := by
        rcases List.mem_cons.mp hb with hba | hbt
        · exact absurd (hba ▸ hab) (hirr a)
        · exact hbt
      exact (List.singleton_sublist.mpr hbt).cons₂ a
    · have hat : a ∈ t := (List.mem_cons.mp ha).resolve_left hax
      by_cases hbx : b = x
      · subst hbx
        exact absurd (htrans a b a hab (hx a hat)) (hirr a)
      · have hbt : b ∈ t := (List.mem_cons.mp hb).resolve_left hbx
        exact (ih a b ht hat hbt hab).cons x

theorem sublist_pair_antisymm {α : Type} :
    ∀ (L : List α) (a b : α), L.Nodup → [a, b].Sublist L → [b, a].Sublist L →
      a = b := by
  intro L
  induction L with
  | nil =>
    intro a b _ hab _
    have := List.sublist_nil.mp hab
    cases this
  | cons x t ih =>
    intro a b hnd hab hba
    obtain ⟨hx, hndt⟩ := List.nodup_cons.mp hnd
    cases hab with
    | cons _ hab2 =>
      cases hba with
      | cons _ hba2 => exact ih _ _ hndt hab2 hba2
      | cons₂ _ hba2 => exact absurd (hab2.subset (by simp)) hx
    | cons₂ _ hab2 =>
      cases hba with
      | cons _ hba2 => exact absurd (hba2.subset (by simp)) hx
      | cons₂ _ hba2 => rfl

theorem eq_of_perm_pairwise_antisymm {α : Type} (R : α → α → Prop) :
    ∀ (l₁ l₂ : List α), l₁.Perm l₂ → l₁.Pairwise R → l₂.Pairwise R → l₁.Nodup →
      (∀ a ∈ l₁, ∀ b ∈ l₁, R a b → R b a → a = b) → l₁ = l₂ := by
  intro l₁
  induction l₁ with
  | nil =>
    intro l₂ hp _ _ _ _
    exact (hp.symm.eq_nil).symm
  | cons a t₁ ih =>
    intro l₂ hp hpw1 hpw2 hnd hanti
    have ha2 : a ∈ l₂ := hp.subset (List.mem_cons_self a t₁)
    obtain ⟨u, v, rfl⟩ := List.append_of_mem ha2
    cases u with
    | nil =>
      rw [List.nil_append] at hp hpw2 ⊢
      have htail : t₁.Perm v := hp.cons_inv
      have heq := ih v htail (List.pairwise_cons.mp hpw1).2
        (List.pairwise_cons.mp hpw2).2 (List.nodup_cons.mp hnd).2
        (fun x hx y hy => hanti x (List.mem_cons_of_mem a hx)
          y (List.mem_cons_of_mem a hy))
      rw [heq]
    | cons b u2 =>
      exfalso
      have hRba : R b a := by
        rw [List.cons_append, List.pairwise_cons] at hpw2
        exact hpw2.1 a (by simp)
      have hb1 : b ∈ a :: t₁ := hp.symm.subset (by simp)
      rcases List.mem_cons.mp hb1 with hba | hbt
      · subst hba
        have hnd2 : ((b :: u2) ++ b :: v).Nodup := hp.nodup_iff.mp hnd
        rw [List.cons_append, List.nodup_cons] at hnd2
        exact hnd2.1 (by simp)
      · have hRab : R a b := (List.pairwise_cons.mp hpw1).1 b hbt
        have hab : a = b := hanti a (List.mem_cons_self a t₁)
          b (List.mem_cons_of_mem a hbt) hRab hRba
        exact (List.nodup_cons.mp hnd).1 (hab ▸ hbt)

theorem dedupFirst_pairwise (ws : List String) :
    (dedupFirst ws).Pairwise (fun a b => firstIdx ws a < firstIdx ws b) := by
  unfold dedupFirst
  rw [List.pairwise_map]
  have he : ws.enum.Pairwise (fun a b => a.1 < b.1) := by
    have h1 : List.Pairwise (fun a b => a < b) (List.map Prod.fst ws.enum) := by
      rw [List.enum_map_fst]
      exact List.pairwise_lt_range ws.length
    exact List.pairwise_map.mp h1
  have hf := he.filter (fun p => firstIdx ws p.2 == p.1)
  apply List.pairwise_iff_forall_sublist.mpr
  intro a b hab
  have h1 := List.pairwise_iff_forall_sublist.mp hf hab
  have ha := List.mem_filter.mp (hab.subset (List.mem_cons_self a [b]))
  have hb := List.mem_filter.mp
    (hab.subset (List.mem_cons_of_mem a (List.mem_cons_self b [])))
  show firstIdx ws a.2 < firstIdx ws b.2
  rw [eq_of_beq ha.2, eq_of_beq hb.2]
  exact h1

theorem firstIdx_filter_lt (p : String → Bool) :
    ∀ (ts : List String) (a b : String), a ∈ ts.filter p → b ∈ ts.filter p →
      firstIdx (ts.filter p) a < firstIdx (ts.filter p) b →
      firstIdx ts a < firstIdx ts b := by
  intro ts
  induction ts with
  | nil =>
    intro a b ha _ _
    simp at ha
  | cons x t ih =>
    intro a b ha hb hlt
    by_cases hx : p x = true
    · rw [List.filter_cons_of_pos hx] at ha hb hlt
      by_cases hax : a = x
      · subst hax
        by_cases hbx : b = a
        · subst hbx
          simp at hlt
        · simp [firstIdx, hbx]
      · by_cases hbx : b = x
        · subst hbx
          simp [firstIdx, hax] at hlt
        · have ha2 : a ∈ t.filter p := (List.mem_cons.mp ha).resolve_left hax
          have hb2 : b ∈ t.filter p := (List.mem_cons.mp hb).resolve_left hbx
          simp only [firstIdx, hax, hbx, if_false, if_neg hax, if_neg hbx,
            Nat.add_lt_add_iff_right] at hlt ⊢
          exact ih a b ha2 hb2 hlt
    · rw [List.filter_cons_of_neg hx] at ha hb hlt
      have hax : a ≠ x := by
        intro he
        exact hx (he ▸ (List.mem_filter.mp ha).2)
      have hbx : b ≠ x := by
        intro he
        exact hx (he ▸ (List.mem_filter.mp hb).2)
      simp only [firstIdx, if_neg hax, if_neg hbx, Nat.add_lt_add_iff_right]
      exact ih a b ha hb hlt

theorem counterItems_shape (ws : List String) (q : String × Nat)
    (h : q ∈ counterItems ws) : q.1 ∈ ws ∧ q.2 = ws.count q.1 := by
  obtain ⟨w, hw, he⟩ := List.mem_map.mp h
  constructor
  · rw [← he]
    exact (dedupFirst_mem ws w).mp hw
  · rw [← he]

theorem counterItems_pairwise (ts : List String) :
    (counterItems (filteredWords ts)).Pairwise
      (fun a b => firstIdx ts a.1 < firstIdx ts b.1) := by
  unfold counterItems
  rw [List.pairwise_map]
  apply List.pairwise_iff_forall_sublist.mpr
  intro a b hab
  have h1 := List.pairwise_iff_forall_sublist.mp
    (dedupFirst_pairwise (filteredWords ts)) hab
  have ha : a ∈ filteredWords ts := (dedupFirst_mem _ _).mp
    (hab.subset (List.mem_cons_self a [b]))
  have hb : b ∈ filteredWords ts := (dedupFirst_mem _ _).mp
    (hab.subset (List.mem_cons_of_mem a (List.mem_cons_self b [])))
  exact firstIdx_filter_lt keepWord ts a b ha hb h1

theorem counterItems_nodup (ts : List String) :
    (counterItems (filteredWords ts)).Nodup := by
  have hp := counterItems_pairwise ts
  exact hp.imp (fun h => fun he => absurd (he ▸ h) (lt_irrefl _))

theorem insertionSort_pairwise_spec (ts : List String) :
    ((counterItems (filteredWords ts)).insertionSort countOrder).Pairwise
      (specOrder ts) := by
  have hsorted := List.sorted_insertionSort countOrder (counterItems (filteredWords ts))
  have hperm := List.perm_insertionSort countOrder (counterItems (filteredWords ts))
  have hnodupA : ((counterItems (filteredWords ts)).insertionSort countOrder).Nodup :=
    hperm.nodup_iff.mpr (counterItems_nodup ts)
  have hLpw := counterItems_pairwise ts
  apply List.pairwise_iff_forall_sublist.mpr
  intro a b hab
  have hcount : b.2 ≤ a.2 := List.pairwise_iff_forall_sublist.mp hsorted hab
  rcases lt_or_eq_of_le hcount with hlt | heq
  · exact Or.inl hlt
  · refine Or.inr ⟨heq.symm, ?_⟩
    by_contra hgt
    push_neg at hgt
    have haA := hab.subset (List.mem_cons_self a [b])
    have hbA := hab.subset (List.mem_cons_of_mem a (List.mem_cons_self b []))
    have haL : a ∈ counterItems (filteredWords ts) := hperm.subset haA
    have hbL : b ∈ counterItems (filteredWords ts) := hperm.subset hbA
    have hpairL : [b, a].Sublist (counterItems (filteredWords ts)) :=
      @pair_sublist_of_pairwise (String × Nat)
        (fun p q => firstIdx ts p.1 < firstIdx ts q.1)
        (fun x y z hxy hyz => Nat.lt_trans hxy hyz)
        (fun x => Nat.lt_irrefl (firstIdx ts x.1))
        (counterItems (filteredWords ts)) b a hLpw hbL haL hgt
    have hpwba : ([b, a] : List (String × Nat)).Pairwise countOrder := by
      refine List.pairwise_cons.mpr ⟨?_, List.pairwise_singleton _ _⟩
      intro y hy
      rcases List.mem_cons.mp hy with rfl | hy2
      · exact heq.symm.le
      · exact absurd hy2 (List.not_mem_nil y)
    have hsubA : [b, a].Sublist ((counterItems (filteredWords ts)).insertionSort countOrder) :=
      List.sublist_insertionSort hpwba hpairL
    have heab : a = b := sublist_pair_antisymm _ a b hnodupA hab hsubA
    rw [heab] at hgt
    exact lt_irrefl _ hgt

theorem specOrder_antisymm_on (ts : List String) (a b : String × Nat)
    (ha : a ∈ counterItems (filteredWords ts)) (hb : b ∈ counterItems (filteredWords ts))
    (h1 : specOrder ts a b) (h2 : specOrder ts b a) : a = b := by
  obtain ⟨ha1, ha2⟩ := counterItems_shape _ a ha
  obtain ⟨hb1, hb2⟩ := counterItems_shape _ b hb
  have hcnt : a.2 = b.2 := by
    rcases h1 with h | ⟨h, _⟩
    · rcases h2 with h' | ⟨h', _⟩
      · omega
      · omega
    · exact h
  have hidx : firstIdx ts a.1 = firstIdx ts b.1 := by
    rcases h1 with h | ⟨_, hi1⟩
    · omega
    · rcases h2 with h' | ⟨_, hi2⟩
      · omega
      · exact Nat.le_antisymm hi1 hi2
  have ha1f : a.1 ∈ List.filter keepWord ts := ha1
  have hb1f : b.1 ∈ List.filter keepWord ts := hb1
  have hw : a.1 = b.1 := firstIdx_inj ts a.1 b.1 (List.mem_filter.mp ha1f).1
    (List.mem_filter.mp hb1f).1 hidx
  exact Prod.ext hw hcnt

theorem mostCommon_eq_topWordsSpec (ts : List String) :
    mostCommon 20 (filteredWords ts) = topWordsSpec ts := by
  unfold mostCommon topWordsSpec
  congr 1
  apply eq_of_perm_pairwise_antisymm (specOrder ts)
  · exact (List.perm_insertionSort countOrder _).trans
      (List.perm_insertionSort (specOrder ts) _).symm
  · exact insertionSort_pairwise_spec ts
  · exact List.sorted_insertionSort (specOrder ts) _
  · exact (List.perm_insertionSort countOrder _).nodup_iff.mpr (counterItems_nodup ts)
  · intro a haA b hbA h1 h2
    exact specOrder_antisymm_on ts a b
      ((List.perm_insertionSort countOrder _).subset haA)
      ((List.perm_insertionSort countOrder _).subset hbA) h1 h2

theorem mostCommon_length_le (n : Nat) (ws : List String) :
    (mostCommon n ws).length ≤ n := by
  unfold mostCommon
  exact List.length_take_le n _

theorem mostCommon_mem_filtered (ws : List String) (q : String × Nat)
    (h : q ∈ mostCommon 20 ws) : q.1 ∈ ws ∧ q.2 = ws.count q.1 := by
  unfold mostCommon at h
  exact counterItems_shape ws q
    ((List.perm_insertionSort countOrder _).subset (List.mem_of_mem_take h))

/-- C3: `top_words` equals the reference computation of the specification:
the filtered tokens are counted, entries are ordered by descending count with
ties broken by first occurrence order in the token sequence, and at most 20
entries are kept; the mapping never contains a stopword, a single-character
token, or an all-digit token. -/
theorem c3_top_words_reference (nfkc : String → String) (url : String)
    (doc : HtmlDoc) (rec : MetadataRecord)
    (h : extractMetadata nfkc url doc = Except.ok rec) :
    rec.top_words = topWordsSpec (docTokens doc) ∧
    rec.top_words.length ≤ 20 ∧
    ∀ q ∈ rec.top_words, q.1 ∉ stopwords ∧ 1 < q.1.length ∧ pyIsdigit q.1 = false := by
  obtain ⟨t, rfl⟩ := extractMetadata_ok_build nfkc url doc rec h
  rw [buildRecord_top_words]
  refine ⟨mostCommon_eq_topWordsSpec (docTokens doc), mostCommon_length_le _ _, ?_⟩
  intro q hq
  have h1 : q.1 ∈ List.filter keepWord (docTokens doc) :=
    (mostCommon_mem_filtered _ q hq).1
  have h2 : keepWord q.1 = true := (List.mem_filter.mp h1).2
  unfold keepWord at h2
  simp only [Bool.and_eq_true, Bool.not_eq_true', decide_eq_true_eq, and_assoc] at h2
  obtain ⟨hs, hl, hd⟩ := h2
  refine ⟨?_, hl, hd⟩
  intro hmem
  have he : List.elem q.1 stopwords = true := List.elem_iff.mpr hmem
  have hc : stopwords.contains q.1 = true := he
  exact absurd (hs.symm.trans hc) Bool.false_ne_true

/-- Witness for C3 at a concrete document; the explicit value checks the model
end-to-end: the repeated word wins, and the stopword, digit and one-letter
tokens are dropped. -/
theorem c3_witness :
    extractMetadata id "https://e.com" wordsDoc =
      Except.ok (buildRecord id "https://e.com" wordsDoc (pyStrip "T")) ∧
    (buildRecord id "https://e.com" wordsDoc (pyStrip "T")).top_words =
      topWordsSpec (docTokens wordsDoc) ∧
    (buildRecord id "https://e.com" wordsDoc (pyStrip "T")).top_words =
      [("hello", 2), ("world", 1)] := by
  refine ⟨extractMetadata_some id "https://e.com" wordsDoc "T" rfl,
    (c3_top_words_reference id "https://e.com" wordsDoc _
      (extractMetadata_some id "https://e.com" wordsDoc "T" rfl)).1, ?_⟩
  rw [buildRecord_top_words]
  decide
